import Mathlib

/-!
Shallow embedding of the `IL_trends` repository's ingestion/merge script
`append_il_ts.py` and of the data handling of the dashboard
`streamlit_app_professional.py`.

Conventions of the embedding:
* a text file's content is given as the list of its lines, each line a `List Char`
  (the script reads the text, strips it and calls `splitlines`; the per-line
  stripping done by the loop makes the outer strip irrelevant to the parsed rows);
* Python strings are modelled over ASCII: `str.strip` and the regex class `\s`
  strip/match the six ASCII whitespace characters;
* the directory of per-topic count files is modelled by a function
  `files : Int → Option (List (List Char))` giving, for a topic id, the content of
  the first file matching `{topic_id}_*.txt`, when one exists;
* pandas dataframes are lists of typed rows; `pivot_table`/`groupby` are group-by
  functions whose output row order (pandas sorts group keys) is abstracted, as no
  statement below depends on it; `sort_values` is modelled by an insertion sort,
  which agrees with pandas up to the order of tied rows.
-/

namespace ILTrends

/-- ASCII whitespace: the characters stripped by Python `str.strip` and matched by
the regex class `\s` (space, tab, newline, vertical tab, form feed, carriage return). -/
def isPySpace (c : Char) : Bool :=
  decide (c = ' ') || decide (c = '\t') || decide (c = '\n') ||
  decide (c = '\x0b') || decide (c = '\x0c') || decide (c = '\r')

/-- Python `str.strip` (ASCII): drop leading and trailing whitespace. -/
def pyStrip (s : List Char) : List Char :=
  ((s.dropWhile isPySpace).reverse.dropWhile isPySpace).reverse

/-- Decimal value of a digit string, most significant digit first: the value
Python `int` computes for a plain digit string. -/
def digitsVal : List Char → Nat
  | [] => 0
  | c :: cs => (c.toNat - 48) * 10 ^ cs.length + digitsVal cs

/-- Tail of the body of a Python integer literal: digits, with a single underscore
allowed only between two digits. -/
def intDigitsAux : List Char → Bool
  | [] => true
  | c :: cs =>
    if c = '_' then
      match cs with
      | [] => false
      | c2 :: cs2 => c2.isDigit && intDigitsAux cs2
    else c.isDigit && intDigitsAux cs

/-- Body of a Python integer literal after the optional sign: nonempty, begins with
a digit, underscores only between digits. -/
def intDigits : List Char → Bool
  | [] => false
  | c :: cs => c.isDigit && intDigitsAux cs

/-- Value of an integer literal body, underscores ignored. -/
def intBodyVal (s : List Char) : Nat :=
  digitsVal (s.filter (fun c => decide (c ≠ '_')))

/-- Python `int(str)` over ASCII: strip whitespace, optional sign, then a decimal
digit body; `none` mirrors `ValueError`. -/
def pyInt? (s : List Char) : Option Int :=
  match pyStrip s with
  | [] => none
  | c :: rest =>
    if c = '+' then (if intDigits rest then some (intBodyVal rest) else none)
    else if c = '-' then (if intDigits rest then some (-(intBodyVal rest : Int)) else none)
    else if intDigits (c :: rest) then some (intBodyVal (c :: rest)) else none

/-- Python `str.split` on the tab character (never returns an empty list). -/
def splitTab : List Char → List (List Char)
  | [] => [[]]
  | c :: cs =>
    if c = '\t' then [] :: splitTab cs
    else
      match splitTab cs with
      | [] => [[c]]
      | p :: ps => (c :: p) :: ps

/-- The regex of `append_il_ts.py` line 29, `^(\d{4}|\d{3}|\d{2}|\d{1})\t`:
the alternation together with the mandatory tab matches exactly when the full run
of leading digits has length one to four and is followed immediately by a tab. -/
def tabPat (l : List Char) : Bool :=
  let d := (l.takeWhile Char.isDigit).length
  decide (1 ≤ d) && decide (d ≤ 4) && decide ((l.drop d).head? = some '\t')

/-- The regex of line 44, `^(\d{4}|\d{3}|\d{2}|\d{1})\s+(\d+)` under `re.match`:
one to four leading digits, at least one whitespace character, then at least one
digit; returns the values of the two captured groups (the leading digit run and
the maximal digit run after the maximal whitespace run, by greedy matching). -/
def wsMatch? (l : List Char) : Option (Nat × Nat) :=
  let ds := l.takeWhile Char.isDigit
  if decide (1 ≤ ds.length) && decide (ds.length ≤ 4) then
    match l.drop ds.length with
    | [] => none
    | c :: rest =>
      if isPySpace c then
        match ((c :: rest).dropWhile isPySpace).takeWhile Char.isDigit with
        | [] => none
        | d :: ds2 => some (digitsVal ds, digitsVal (d :: ds2))
      else none
  else none

/-- Body of the parsing loop of `parse_il_ts_file` (lines 25-48) for one line:
strip it, skip it when blank, try the tab-separated form (split on tabs, require
two fields, parse both through `int`), and otherwise the whitespace-separated
regex form. -/
def parseLine (rawLine : List Char) : Option (Int × Int) :=
  let line := pyStrip rawLine
  if line = [] then none
  else if tabPat line then
    match splitTab line with
    | p0 :: p1 :: _ =>
      (match pyInt? p0 with
       | none => none
       | some y =>
         match pyInt? p1 with
         | none => none
         | some c => some (y, c))
    | _ => none
  else
    match wsMatch? line with
    | none => none
    | some (y, c) => some ((y : Int), (c : Int))

/-- `parse_il_ts_file` (lines 20-49), the file content given as its list of lines:
fold the loop over the lines, collecting the parsed `(year, count)` pairs in order. -/
def parse_il_ts_file (lines : List (List Char)) : List (Int × Int) :=
  match lines with
  | [] => []
  | line :: rest =>
    match parseLine line with
    | none => parse_il_ts_file rest
    | some p => p :: parse_il_ts_file rest

/-- One row of the master detailed table. -/
structure Row where
  Year : Int
  Search_Topic_ID : Int
  Search_Topic : String
  Search_Level : String
  Search_Level_Description : String
  Record_Count : Int
deriving DecidableEq

/-- `TOPIC_MAP` (lines 12-17) as an association list; its order is
`sorted(TOPIC_MAP.keys())`, the order `main` iterates topics in. -/
def TOPIC_MAP : List (Int × String) :=
  [(6, "Ionic Liquids (All)"),
   (7, "ILs in Electrochemistry"),
   (8, "ILs in Electrochemical Manufacturing"),
   (9, "Elevated-T IL Electrochemical Manufacturing")]

/-- The row `main` builds for one parsed `(year, count)` pair of a topic
(lines 70-78). -/
def mkTSRow (tid : Int) (name : String) (p : Int × Int) : Row :=
  { Year := p.1, Search_Topic_ID := tid, Search_Topic := name,
    Search_Level := "TS",
    Search_Level_Description := "Title + Abstract + Keywords",
    Record_Count := p.2 }

/-- `appended_rows` after the loop of lines 60-78: for each topic in key order,
parse its count file when one exists and build one row per parsed pair. -/
def appendedRows (files : Int → Option (List (List Char))) : List Row :=
  TOPIC_MAP.flatMap (fun t =>
    match files t.1 with
    | none => []
    | some content => (parse_il_ts_file content).map (mkTSRow t.1 t.2))

/-- The mask of line 83: keep a prior row unless its topic id is a `TOPIC_MAP` key
and its level is `TS`. -/
def tsMaskKeep (r : Row) : Bool :=
  !(decide (r.Search_Topic_ID ∈ TOPIC_MAP.map Prod.fst) && decide (r.Search_Level = "TS"))

/-- Code-point comparison of character lists: how Python (hence pandas) orders
`str` values. -/
def charListLt : List Char → List Char → Bool
  | _, [] => false
  | [], _ :: _ => true
  | a :: as, b :: bs => decide (a < b) || (decide (a = b) && charListLt as bs)

/-- Strict code-point order on strings. -/
def strLt (a b : String) : Bool := charListLt a.toList b.toList

/-- The key order of `sort_values(['Search_Topic_ID','Search_Level','Year'])`
(line 86): ascending lexicographic comparison of the three sort keys. -/
def rowLEb (a b : Row) : Bool :=
  decide (a.Search_Topic_ID < b.Search_Topic_ID) ||
  (decide (a.Search_Topic_ID = b.Search_Topic_ID) &&
    (strLt a.Search_Level b.Search_Level ||
      (decide (a.Search_Level = b.Search_Level) && decide (a.Year ≤ b.Year))))

/-- Propositional form of the sort order. -/
def rowLe (a b : Row) : Prop := rowLEb a b = true

instance : DecidableRel rowLe := fun _ _ => instDecidableEqBool _ _

/-- The sorted merged table of lines 83-86: drop the masked prior rows, append the
new rows, sort by the three keys. -/
def mergedTable (master : List Row) (files : Int → Option (List (List Char))) : List Row :=
  List.insertionSort rowLe (master.filter tsMaskKeep ++ appendedRows files)

/-- Key of a pivot group: `(Year, Search_Topic_ID, Search_Topic)` (line 91). -/
def tripleOf (r : Row) : Int × Int × String :=
  (r.Year, r.Search_Topic_ID, r.Search_Topic)

/-- Total `Record_Count` of a list of rows. -/
def rcSum (rows : List Row) : Int := (rows.map Row.Record_Count).sum

/-- The scope columns kept by line 92: those of `'KW','TI','TS'` (in this order)
that occur as a `Search_Level` of the table. -/
def pivotLevels (rows : List Row) : List String :=
  (["KW", "TI", "TS"] : List String).filter
    (fun c => rows.any (fun r => decide (r.Search_Level = c)))

/-- The distinct pivot group keys of the table. -/
def pivotKeys (rows : List Row) : List (Int × Int × String) :=
  (rows.map tripleOf).dedup

/-- One cell of the pivot: the summed `Record_Count` of the group's rows at the
given scope (`aggfunc='sum'`, and `fill_value=0` is the empty sum). -/
def pivotCell (rows : List Row) (k : Int × Int × String) (c : String) : Int :=
  rcSum (rows.filter (fun r => decide (tripleOf r = k) && decide (r.Search_Level = c)))

/-- One row of the pivot view: the group key and one cell per kept scope column. -/
structure PivotRow where
  Year : Int
  Search_Topic_ID : Int
  Search_Topic : String
  cells : List (String × Int)
deriving DecidableEq

/-- The pivot view of lines 91-93: one row per distinct
`(Year, Search_Topic_ID, Search_Topic)` of the table. -/
def pivotOf (rows : List Row) : List PivotRow :=
  (pivotKeys rows).map (fun k =>
    { Year := k.1, Search_Topic_ID := k.2.1, Search_Topic := k.2.2,
      cells := (pivotLevels rows).map (fun c => (c, pivotCell rows k c)) })

/-- Key of a summary group: `(Search_Topic_ID, Search_Topic, Search_Level)`
(line 98). -/
def sKey (r : Row) : Int × String × String :=
  (r.Search_Topic_ID, r.Search_Topic, r.Search_Level)

/-- One row of the summary view. -/
structure SummaryRow where
  Search_Topic_ID : Int
  Search_Topic : String
  Search_Level : String
  Record_Count : Int
deriving DecidableEq

/-- The summary view of line 98: `groupby` on the three keys, summing
`Record_Count`. -/
def summaryOf (rows : List Row) : List SummaryRow :=
  ((rows.map sKey).dedup).map (fun k =>
    { Search_Topic_ID := k.1, Search_Topic := k.2.1, Search_Level := k.2.2,
      Record_Count := rcSum (rows.filter (fun r => decide (sKey r = k))) })

/-- The three master CSV outputs of `main`. -/
structure MasterState where
  detailed : List Row
  pivot : List PivotRow
  summary : List SummaryRow
deriving DecidableEq

/-- The effect of `main` (lines 60-102) on the three outputs: when no rows were
parsed (`appended_rows` empty) nothing is written; otherwise the merged sorted
table replaces the detailed output and the two views are regenerated from it. -/
def mainRun (files : Int → Option (List (List Char))) (st : MasterState) : MasterState :=
  match appendedRows files with
  | [] => st
  | _ :: _ =>
    { detailed := mergedTable st.detailed files,
      pivot := pivotOf (mergedTable st.detailed files),
      summary := summaryOf (mergedTable st.detailed files) }

/-- The dashboard's filter (`streamlit_app_professional.py` lines 225-230):
selected topics, selected levels, inclusive year range. -/
def filteredOf (df : List Row) (topics : List Int) (levels : List String)
    (year_start year_end : Int) : List Row :=
  df.filter (fun r =>
    decide (r.Search_Topic_ID ∈ topics) && decide (r.Search_Level ∈ levels) &&
    decide (year_start ≤ r.Year) && decide (r.Year ≤ year_end))

/-- Key of a chart aggregation group (line 237). -/
def aggKey (r : Row) : Int × Int × String × String :=
  (r.Year, r.Search_Topic_ID, r.Search_Topic, r.Search_Level)

/-- One row of the dashboard's chart aggregation. -/
structure AggRow where
  Year : Int
  Search_Topic_ID : Int
  Search_Topic : String
  Search_Level : String
  Record_Count : Int
deriving DecidableEq

/-- The chart aggregation of line 237: `groupby` on the four keys, summing
`Record_Count`. -/
def aggOf (df : List Row) : List AggRow :=
  ((df.map aggKey).dedup).map (fun k =>
    { Year := k.1, Search_Topic_ID := k.2.1, Search_Topic := k.2.2.1,
      Search_Level := k.2.2.2,
      Record_Count := rcSum (df.filter (fun r => decide (aggKey r = k))) })

/-- First disjunct of claim C2's line condition, in the claim's words: the line
begins with a 1-to-4-digit number followed by a tab, and the second tab-separated
field is parseable as an integer. -/
def claimTabCase (l : List Char) : Bool :=
  tabPat l &&
    (match splitTab l with
     | _ :: p1 :: _ => (pyInt? p1).isSome
     | _ => false)

/-- Second disjunct of claim C2's line condition, in the claim's words: the line
begins with a 1-to-4-digit number followed by whitespace and a digit sequence. -/
def claimWsCase (l : List Char) : Bool :=
  let d := (l.takeWhile Char.isDigit).length
  decide (1 ≤ d) && decide (d ≤ 4) &&
    (match l.drop d with
     | [] => false
     | c :: rest =>
       isPySpace c &&
         (match ((c :: rest).dropWhile isPySpace).takeWhile Char.isDigit with
          | [] => false
          | _ :: _ => true))

/-- Count file content for topic 6 used by the concrete evaluations below. -/
def exFile6 : List (List Char) := [("2020\t5").toList, ("2021\t7").toList]

/-- Concrete directory: a file for topic 6 only. -/
def files0 : Int → Option (List (List Char)) :=
  fun tid => if tid = 6 then some exFile6 else none

/-- Concrete directory with no count files at all. -/
def filesNone : Int → Option (List (List Char)) := fun _ => none

/-- A prior master row at a scope other than `KW`/`TI`/`TS`. -/
def rowAB : Row :=
  { Year := 1999, Search_Topic_ID := 3, Search_Topic := "Topic Three",
    Search_Level := "AB", Search_Level_Description := "Other scope",
    Record_Count := 5 }

/-- A prior master `TS` row for topic 7, whose count file is absent in `files0`. -/
def row7TS : Row :=
  { Year := 2000, Search_Topic_ID := 7, Search_Topic := "ILs in Electrochemistry",
    Search_Level := "TS",
    Search_Level_Description := "Title + Abstract + Keywords",
    Record_Count := 4 }

/-- Concrete prior state of the three outputs. -/
def st0 : MasterState := { detailed := [rowAB, row7TS], pivot := [], summary := [] }

/-- Code-point comparison of character lists is transitive. -/
theorem charListLt_trans :
    ∀ {a b c : List Char}, charListLt a b = true → charListLt b c = true →
      charListLt a c = true := by
  intro a
  induction a with
  | nil =>
    intro b c h1 h2
    cases b with
    | nil => exact absurd h1 (by simp [charListLt])
    | cons x xs =>
      cases c with
      | nil => exact absurd h2 (by simp [charListLt])
      | cons y ys => simp [charListLt]
  | cons p ps ih =>
    intro b c h1 h2
    cases b with
    | nil => exact absurd h1 (by simp [charListLt])
    | cons x xs =>
      cases c with
      | nil => exact absurd h2 (by simp [charListLt])
      | cons y ys =>
        simp only [charListLt, Bool.or_eq_true, Bool.and_eq_true,
          decide_eq_true_eq] at h1 h2 ⊢
        rcases h1 with h1 | ⟨e1, h1⟩ <;> rcases h2 with h2 | ⟨e2, h2⟩
        · exact Or.inl (lt_trans h1 h2)
        · exact Or.inl (e2 ▸ h1)
        · exact Or.inl (e1 ▸ h2)
        · exact Or.inr ⟨e1.trans e2, ih h1 h2⟩

/-- Code-point comparison of character lists is trichotomous. -/
theorem charListLt_total :
    ∀ (a b : List Char), charListLt a b = true ∨ a = b ∨ charListLt b a = true := by
  intro a
  induction a with
  | nil =>
    intro b
    cases b with
    | nil => exact Or.inr (Or.inl rfl)
    | cons y ys => exact Or.inl (by simp [charListLt])
  | cons x xs ih =>
    intro b
    cases b with
    | nil => exact Or.inr (Or.inr (by simp [charListLt]))
    | cons y ys =>
      rcases lt_trichotomy x y with h | h | h
      · exact Or.inl (by simp [charListLt, h])
      · rcases ih ys with h2 | h2 | h2
        · exact Or.inl (by simp [charListLt, h, h2])
        · exact Or.inr (Or.inl (by rw [h, h2]))
        · exact Or.inr (Or.inr (by simp [charListLt, h.symm, h2]))
      · exact Or.inr (Or.inr (by simp [charListLt, h]))

/-- The string order is transitive. -/
theorem strLt_trans {a b c : String} (h1 : strLt a b = true) (h2 : strLt b c = true) :
    strLt a c = true :=
  charListLt_trans h1 h2

/-- The string order is trichotomous. -/
theorem strLt_total (a b : String) :
    strLt a b = true ∨ a = b ∨ strLt b a = true := by
  rcases charListLt_total a.toList b.toList with h | h | h
  · exact Or.inl h
  · exact Or.inr (Or.inl (String.ext h))
  · exact Or.inr (Or.inr h)

instance : IsTrans Row rowLe := by
  constructor
  intro a b c hab hbc
  simp only [rowLe, rowLEb, Bool.or_eq_true, Bool.and_eq_true,
    decide_eq_true_eq] at hab hbc ⊢
  rcases hab with h1 | ⟨e1, h1⟩ <;> rcases hbc with h2 | ⟨e2, h2⟩
  · exact Or.inl (lt_trans h1 h2)
  · exact Or.inl (e2 ▸ h1)
  · exact Or.inl (e1 ▸ h2)
  · refine Or.inr ⟨e1.trans e2, ?_⟩
    rcases h1 with h1 | ⟨f1, h1⟩ <;> rcases h2 with h2 | ⟨f2, h2⟩
    · exact Or.inl (strLt_trans h1 h2)
    · exact Or.inl (f2 ▸ h1)
    · exact Or.inl (f1 ▸ h2)
    · exact Or.inr ⟨f1.trans f2, le_trans h1 h2⟩

instance : IsTotal Row rowLe := by
  constructor
  intro a b
  simp only [rowLe, rowLEb, Bool.or_eq_true, Bool.and_eq_true, decide_eq_true_eq]
  rcases lt_trichotomy a.Search_Topic_ID b.Search_Topic_ID with h | h | h
  · exact Or.inl (Or.inl h)
  · rcases strLt_total a.Search_Level b.Search_Level with hs | hs | hs
    · exact Or.inl (Or.inr ⟨h, Or.inl hs⟩)
    · rcases le_total a.Year b.Year with hy | hy
      · exact Or.inl (Or.inr ⟨h, Or.inr ⟨hs, hy⟩⟩)
      · exact Or.inr (Or.inr ⟨h.symm, Or.inr ⟨hs.symm, hy⟩⟩)
    · exact Or.inr (Or.inr ⟨h.symm, Or.inl hs⟩)
  · exact Or.inr (Or.inl h)

/-- The mask of line 83, spelled out: a prior row is kept exactly when it is not a
`TS` row of one of the four mapped topics. -/
theorem tsMaskKeep_iff (r : Row) :
    tsMaskKeep r = true ↔
      ¬(r.Search_Topic_ID ∈ ([6, 7, 8, 9] : List Int) ∧ r.Search_Level = "TS") := by
  simp only [tsMaskKeep, TOPIC_MAP, List.map_cons, List.map_nil, Bool.not_eq_eq_eq_not,
    Bool.not_true, Bool.and_eq_false_imp, decide_eq_true_eq, decide_eq_false_iff_not,
    List.mem_cons, List.not_mem_nil, or_false, not_and]

/-- C1 fails as stated: in `st0`/`files0`, topic 7's count file is absent, so no
appended row has topic 7; yet the prior `TS` row of topic 7 is not carried over
into the merged detailed table. -/
theorem c1_counterexample :
    row7TS ∈ st0.detailed ∧
      (∀ r ∈ appendedRows files0, r.Search_Topic_ID ≠ 7) ∧
      appendedRows files0 ≠ [] ∧
      row7TS ∉ (mainRun files0 st0).detailed := by decide

/-- C1 (amended): when the merge happens, the merged detailed table consists
exactly (up to the final sort) of the prior rows that are not `TS` rows of a
mapped topic (6, 7, 8, 9) - whether or not that topic's file was parsed -
together with the newly appended rows; a prior row of any other topic or scope
combination is carried over, and every prior `TS` row of a mapped topic is
removed. -/
theorem c1_merge_scope (files : Int → Option (List (List Char))) (st : MasterState)
    (h : appendedRows files ≠ []) :
    ((mainRun files st).detailed.Perm
        (st.detailed.filter tsMaskKeep ++ appendedRows files)) ∧
      ∀ r : Row, r ∈ (mainRun files st).detailed ↔
        ((r ∈ st.detailed ∧
            ¬(r.Search_Topic_ID ∈ ([6, 7, 8, 9] : List Int) ∧ r.Search_Level = "TS"))
          ∨ r ∈ appendedRows files) := by
  cases happ : appendedRows files with
  | nil => exact absurd happ h
  | cons a as =>
    rw [← happ]
    have hd : (mainRun files st).detailed = mergedTable st.detailed files := by
      simp [mainRun, happ]
    rw [hd]
    constructor
    · exact List.perm_insertionSort rowLe _
    · intro r
      rw [mergedTable, List.mem_insertionSort, List.mem_append, List.mem_filter,
        tsMaskKeep_iff]

/-- Witness for C1's amended theorem at the concrete input `files0`, `st0`. -/
theorem c1_witness :
    appendedRows files0 ≠ [] ∧
      (row7TS ∈ (mainRun files0 st0).detailed ↔
        ((row7TS ∈ st0.detailed ∧
            ¬(row7TS.Search_Topic_ID ∈ ([6, 7, 8, 9] : List Int) ∧
                row7TS.Search_Level = "TS"))
          ∨ row7TS ∈ appendedRows files0)) :=
  ⟨by decide, (c1_merge_scope files0 st0 (by decide)).2 row7TS⟩

/-- C8: when no `(year, count)` rows are parsed from any topic's count file, no
rows are appended and `main` leaves all three outputs unchanged. -/
theorem c8_no_rows_no_write (files : Int → Option (List (List Char)))
    (st : MasterState)
    (h : ∀ tid content, files tid = some content → parse_il_ts_file content = []) :
    mainRun files st = st := by
  have happ : appendedRows files = [] := by
    rw [appendedRows, List.flatMap_eq_nil_iff]
    intro t _
    cases hf : files t.1 with
    | none => rfl
    | some content => simp [h t.1 content hf]
  simp [mainRun, happ]

/-- Witness for C8 at a directory with no files at all. -/
theorem c8_witness :
    (∀ tid content, filesNone tid = some content → parse_il_ts_file content = []) ∧
      mainRun filesNone st0 = st0 :=
  ⟨fun tid content hc => by simp [filesNone] at hc,
   c8_no_rows_no_write filesNone st0
     (fun tid content hc => by simp [filesNone] at hc)⟩

/-- C9: after a successful merge, the written detailed table is sorted ascending
by `Search_Topic_ID`, then `Search_Level`, then `Year`. -/
theorem c9_detailed_sorted (files : Int → Option (List (List Char)))
    (st : MasterState) (h : appendedRows files ≠ []) :
    List.Sorted rowLe (mainRun files st).detailed := by
  cases happ : appendedRows files with
  | nil => exact absurd happ h
  | cons a as =>
    have hd : (mainRun files st).detailed = mergedTable st.detailed files := by
      simp [mainRun, happ]
    rw [hd, mergedTable]
    exact List.sorted_insertionSort rowLe _

/-- Witness for C9 at the concrete input `files0`, `st0`. -/
theorem c9_witness :
    appendedRows files0 ≠ [] ∧ List.Sorted rowLe (mainRun files0 st0).detailed :=
  ⟨by decide, c9_detailed_sorted files0 st0 (by decide)⟩

/-- Value bounds of a decimal digit character. -/
theorem isDigit_val {c : Char} (h : c.isDigit = true) : 48 ≤ c.toNat ∧ c.toNat ≤ 57 := by
  simp [Char.isDigit] at h
  exact ⟨h.1, h.2⟩

/-- A whitespace character is not a digit. -/
theorem not_digit_of_space {c : Char} (h : isPySpace c = true) : c.isDigit = false := by
  simp only [isPySpace, Bool.or_eq_true, decide_eq_true_eq] at h
  rcases h with ((((h | h) | h) | h) | h) | h <;> rw [h] <;> decide

/-- A digit character is not whitespace. -/
theorem digit_not_space {c : Char} (h : c.isDigit = true) : isPySpace c = false := by
  cases hsp : isPySpace c
  · rfl
  · rw [not_digit_of_space hsp] at h
    cases h

/-- A digit character is not a tab. -/
theorem digit_ne_tab {c : Char} (h : c.isDigit = true) : c ≠ '\t' := by
  rintro rfl
  exact absurd h (by decide)

/-- A digit character is not an underscore. -/
theorem digit_ne_underscore {c : Char} (h : c.isDigit = true) : c ≠ '_' := by
  rintro rfl
  exact absurd h (by decide)

/-- A digit character is not a plus sign. -/
theorem digit_ne_plus {c : Char} (h : c.isDigit = true) : c ≠ '+' := by
  rintro rfl
  exact absurd h (by decide)

/-- A digit character is not a minus sign. -/
theorem digit_ne_minus {c : Char} (h : c.isDigit = true) : c ≠ '-' := by
  rintro rfl
  exact absurd h (by decide)

/-- dropWhile is the identity on a list none of whose elements satisfy the test. -/
theorem dropWhile_eq_self_of_all {α : Type} (p : α → Bool) (l : List α)
    (h : ∀ c ∈ l, p c = false) : l.dropWhile p = l := by
  cases l with
  | nil => rfl
  | cons c cs => simp [List.dropWhile_cons, h c (by simp)]

/-- Stripping is the identity on a list with no whitespace. -/
theorem pyStrip_no_space (s : List Char) (h : ∀ c ∈ s, isPySpace c = false) :
    pyStrip s = s := by
  rw [pyStrip, dropWhile_eq_self_of_all isPySpace s h,
    dropWhile_eq_self_of_all isPySpace s.reverse
      (fun c hc => h c (List.mem_reverse.mp hc)),
    List.reverse_reverse]

/-- The integer-body test accepts any nonempty all-digit tail. -/
theorem intDigitsAux_all (l : List Char) (h : ∀ c ∈ l, c.isDigit = true) :
    intDigitsAux l = true := by
  induction l with
  | nil => rfl
  | cons c cs ih =>
    rw [intDigitsAux.eq_def]
    simp only []
    rw [if_neg (digit_ne_underscore (h c (by simp)))]
    simp [h c (by simp), ih (fun x hx => h x (by simp [hx]))]

/-- The integer-body test accepts any nonempty all-digit string. -/
theorem intDigits_all (l : List Char) (hne : l ≠ []) (h : ∀ c ∈ l, c.isDigit = true) :
    intDigits l = true := by
  cases l with
  | nil => exact absurd rfl hne
  | cons c cs =>
    rw [intDigits]
    simp [h c (by simp), intDigitsAux_all cs (fun x hx => h x (by simp [hx]))]

/-- Python int of a nonempty all-digit string is its decimal value. -/
theorem pyInt?_digits (l : List Char) (hne : l ≠ []) (h : ∀ c ∈ l, c.isDigit = true) :
    pyInt? l = some ((digitsVal l : Nat) : Int) := by
  have hstrip : pyStrip l = l :=
    pyStrip_no_space l (fun c hc => digit_not_space (h c hc))
  rw [pyInt?, hstrip]
  cases l with
  | nil => exact absurd rfl hne
  | cons c cs =>
    have hc := h c (by simp)
    simp only []
    rw [if_neg (digit_ne_plus hc), if_neg (digit_ne_minus hc),
      if_pos (intDigits_all (c :: cs) (by simp) h)]
    rw [intBodyVal, List.filter_eq_self.mpr
      (fun x hx => by simp [digit_ne_underscore (h x hx)])]

/-- A digit string of length n has value below 10 ^ n. -/
theorem digitsVal_lt (l : List Char) (h : ∀ c ∈ l, c.isDigit = true) :
    digitsVal l < 10 ^ l.length := by
  induction l with
  | nil => simp [digitsVal]
  | cons c cs ih =>
    have hc : c.toNat - 48 ≤ 9 := by
      rcases isDigit_val (h c (by simp)) with ⟨h1, h2⟩
      omega
    have hcs := ih (fun x hx => h x (by simp [hx]))
    have hpow : (0 : Nat) < 10 ^ cs.length := Nat.pos_pow_of_pos _ (by norm_num)
    calc digitsVal (c :: cs) = (c.toNat - 48) * 10 ^ cs.length + digitsVal cs := rfl
      _ ≤ 9 * 10 ^ cs.length + digitsVal cs := by
          exact Nat.add_le_add_right (Nat.mul_le_mul_right _ hc) _
      _ < 9 * 10 ^ cs.length + 10 ^ cs.length := by omega
      _ = 10 ^ (cs.length + 1) := by ring
      _ = 10 ^ (c :: cs).length := by simp

/-- Dropping as many elements as the maximal matching run takes is dropWhile. -/
theorem drop_takeWhile_length {α : Type} (p : α → Bool) :
    ∀ l : List α, l.drop (l.takeWhile p).length = l.dropWhile p := by
  intro l
  induction l with
  | nil => rfl
  | cons c cs ih =>
    by_cases h : p c
    · simp [List.takeWhile_cons, List.dropWhile_cons, h, ih]
    · simp [List.takeWhile_cons, List.dropWhile_cons, h]

/-- Python split never returns an empty list of fields. -/
theorem splitTab_ne_nil (l : List Char) : splitTab l ≠ [] := by
  cases l with
  | nil => simp [splitTab]
  | cons c cs =>
    rw [splitTab]
    split
    · simp
    · split <;> simp

/-- Splitting a tab-free block followed by a tab peels off the block as the first
field. -/
theorem splitTab_no_tab_cons (ds t : List Char) (h : ∀ c ∈ ds, c ≠ '\t') :
    splitTab (ds ++ '\t' :: t) = ds :: splitTab t := by
  induction ds with
  | nil => simp [splitTab]
  | cons c cs ih =>
    have hc : c ≠ '\t' := h c (by simp)
    rw [List.cons_append, splitTab, if_neg hc,
      ih (fun x hx => h x (by simp [hx]))]

/-- A line matching the tab regex is its leading digits (one to four of them),
a tab, and a remainder. -/
theorem tabPat_decomp {l : List Char} (h : tabPat l = true) :
    ∃ t : List Char,
      l = l.takeWhile Char.isDigit ++ '\t' :: t ∧
        1 ≤ (l.takeWhile Char.isDigit).length ∧
        (l.takeWhile Char.isDigit).length ≤ 4 := by
  simp only [tabPat, Bool.and_eq_true, decide_eq_true_eq] at h
  obtain ⟨⟨h1, h4⟩, hhd⟩ := h
  rw [drop_takeWhile_length] at hhd
  cases hdw : l.dropWhile Char.isDigit with
  | nil => rw [hdw] at hhd; cases hhd
  | cons x xs =>
    rw [hdw] at hhd
    simp only [List.head?_cons, Option.some.injEq] at hhd
    subst hhd
    refine ⟨xs, ?_, h1, h4⟩
    rw [← hdw]
    exact (List.takeWhile_append_dropWhile Char.isDigit l).symm

/-- The whitespace-regex matcher succeeds exactly when claim C2's second disjunct
holds of the line. -/
theorem wsMatch?_isSome (l : List Char) : (wsMatch? l).isSome = claimWsCase l := by
  rw [wsMatch?, claimWsCase]
  by_cases h : (decide (1 ≤ (l.takeWhile Char.isDigit).length) &&
      decide ((l.takeWhile Char.isDigit).length ≤ 4)) = true
  · rw [if_pos h, h, Bool.true_and]
    cases hdrop : l.drop (l.takeWhile Char.isDigit).length with
    | nil => rfl
    | cons c rest =>
      simp only []
      by_cases hsp : isPySpace c = true
      · rw [if_pos hsp, hsp, Bool.true_and]
        cases ((c :: rest).dropWhile isPySpace).takeWhile Char.isDigit <;> rfl
      · rw [if_neg hsp, Bool.eq_false_iff.mpr hsp, Bool.false_and]
        rfl
  · rw [if_neg h, Bool.eq_false_iff.mpr h, Bool.false_and]
    rfl

/-- The year captured by the whitespace regex is at most four digits long. -/
theorem wsMatch?_year_le {l : List Char} {y c : Nat}
    (h : wsMatch? l = some (y, c)) : y ≤ 9999 := by
  rw [wsMatch?] at h
  by_cases hif : (decide (1 ≤ (l.takeWhile Char.isDigit).length) &&
      decide ((l.takeWhile Char.isDigit).length ≤ 4)) = true
  · rw [if_pos hif] at h
    simp only [Bool.and_eq_true, decide_eq_true_eq] at hif
    cases hdrop : l.drop (l.takeWhile Char.isDigit).length with
    | nil => rw [hdrop] at h; cases h
    | cons c0 rest =>
      rw [hdrop] at h
      simp only [] at h
      by_cases hsp : isPySpace c0 = true
      · rw [if_pos hsp] at h
        cases hds2 : ((c0 :: rest).dropWhile isPySpace).takeWhile Char.isDigit with
        | nil => rw [hds2] at h; cases h
        | cons d2 ds2 =>
          rw [hds2] at h
          simp only [Option.some.injEq, Prod.mk.injEq] at h
          have hy : y = digitsVal (l.takeWhile Char.isDigit) := h.1.symm
          have hd := digitsVal_lt (l.takeWhile Char.isDigit)
            (fun x hx => List.mem_takeWhile_imp hx)
          have hpow : 10 ^ (l.takeWhile Char.isDigit).length ≤ 10 ^ 4 :=
            Nat.pow_le_pow_right (by norm_num) hif.2
          omega
      · rw [if_neg hsp] at h; cases h
  · rw [if_neg hif] at h; cases h

/-- Under the tab regex, the split has the leading digit run as its first field
and at least one further field. -/
theorem splitTab_tabPat {l : List Char} (h : tabPat l = true) :
    ∃ q0 qs, splitTab l = l.takeWhile Char.isDigit :: q0 :: qs := by
  obtain ⟨t, heq, h1, h4⟩ := tabPat_decomp h
  have hds : ∀ c ∈ l.takeWhile Char.isDigit, c ≠ '\t' :=
    fun c hc => digit_ne_tab (List.mem_takeWhile_imp hc)
  cases hq : splitTab t with
  | nil => exact absurd hq (splitTab_ne_nil t)
  | cons q0 qs =>
    refine ⟨q0, qs, ?_⟩
    conv_lhs => rw [heq]
    rw [splitTab_no_tab_cons _ _ hds, hq]

/-- C2 fails as stated: the line `12<tab>34x` begins with a 1-to-4-digit number
followed by whitespace and a digit sequence (the claim's second alternative),
yet the code parses no pair from it, because the tab branch takes priority and
`int` rejects the second tab-separated field `34x`. -/
theorem c2_counterexample :
    (claimTabCase (pyStrip ("12\t34x").toList) ||
        claimWsCase (pyStrip ("12\t34x").toList)) = true ∧
      parse_il_ts_file [("12\t34x").toList] = [] := by decide

/-- C2 (amended): the parser returns the pairs in line order, one per accepted
line, and a line is accepted exactly when, after stripping, it either begins
with a 1-to-4-digit number followed by a tab whose second tab-separated field
parses as an integer, or it does not begin with a 1-to-4-digit number followed
by a tab but does begin with a 1-to-4-digit number followed by whitespace and a
digit sequence; every other line is skipped. -/
theorem c2_parse_characterization :
    (∀ lines, parse_il_ts_file lines = lines.filterMap parseLine) ∧
      ∀ line, (parseLine line).isSome =
        (claimTabCase (pyStrip line) ||
          (!tabPat (pyStrip line) && claimWsCase (pyStrip line))) := by
  constructor
  · intro lines
    induction lines with
    | nil => rfl
    | cons l rest ih =>
      rw [parse_il_ts_file, List.filterMap_cons]
      cases parseLine l
      · simp only []
        exact ih
      · simp only []
        rw [ih]
  · intro line
    by_cases hnil : pyStrip line = []
    · have hL : parseLine line = none := by
        rw [parseLine, hnil]
        rfl
      rw [hL, hnil]
      rfl
    · by_cases htab : tabPat (pyStrip line) = true
      · obtain ⟨q0, qs, hsplit⟩ := splitTab_tabPat htab
        obtain ⟨t, heq, h1, h4⟩ := tabPat_decomp htab
        have hds_digit : ∀ x ∈ (pyStrip line).takeWhile Char.isDigit,
            x.isDigit = true := fun x hx => List.mem_takeWhile_imp hx
        have hdsne : (pyStrip line).takeWhile Char.isDigit ≠ [] := by
          intro hx
          rw [hx] at h1
          simp at h1
        have hL : parseLine line =
            (match pyInt? q0 with
             | none => none
             | some c =>
               some (((digitsVal ((pyStrip line).takeWhile Char.isDigit) : Nat) : Int), c)) := by
          rw [parseLine]
          rw [if_neg hnil, if_pos htab, hsplit]
          simp only []
          rw [pyInt?_digits _ hdsne hds_digit]
        rw [hL, claimTabCase, hsplit, htab, Bool.true_and, Bool.not_true,
          Bool.false_and, Bool.or_false]
        simp only []
        cases pyInt? q0 <;> rfl
      · have hf : tabPat (pyStrip line) = false := Bool.eq_false_iff.mpr htab
        have hL : parseLine line =
            (match wsMatch? (pyStrip line) with
             | none => none
             | some (y, c) => some ((y : Int), (c : Int))) := by
          rw [parseLine]
          rw [if_neg hnil, if_neg htab]
        rw [hL, claimTabCase, hf, Bool.false_and, Bool.not_false, Bool.true_and,
          Bool.false_or, ← wsMatch?_isSome]
        cases wsMatch? (pyStrip line) with
        | none => rfl
        | some p =>
          obtain ⟨y, c⟩ := p
          rfl

/-- Year bounds of one parsed line. -/
theorem parseLine_bounds {line : List Char} {y c : Int}
    (h : parseLine line = some (y, c)) : 0 ≤ y ∧ y ≤ 9999 := by
  by_cases hnil : pyStrip line = []
  · simp [parseLine, hnil] at h
  · by_cases htab : tabPat (pyStrip line) = true
    · obtain ⟨q0, qs, hsplit⟩ := splitTab_tabPat htab
      obtain ⟨t, heq, h1, h4⟩ := tabPat_decomp htab
      have hds_digit : ∀ x ∈ (pyStrip line).takeWhile Char.isDigit,
          x.isDigit = true := fun x hx => List.mem_takeWhile_imp hx
      have hdsne : (pyStrip line).takeWhile Char.isDigit ≠ [] := by
        intro hx
        rw [hx] at h1
        simp at h1
      rw [parseLine] at h
      rw [if_neg hnil, if_pos htab, hsplit] at h
      simp only [] at h
      rw [pyInt?_digits _ hdsne hds_digit] at h
      cases hq : pyInt? q0 with
      | none => rw [hq] at h; simp at h
      | some c0 =>
        rw [hq] at h
        simp only [Option.some.injEq, Prod.mk.injEq] at h
        have hy : y = ((digitsVal ((pyStrip line).takeWhile Char.isDigit) : Nat) : Int) :=
          h.1.symm
        have hlt := digitsVal_lt _ hds_digit
        have hpow : 10 ^ ((pyStrip line).takeWhile Char.isDigit).length ≤ 10 ^ 4 :=
          Nat.pow_le_pow_right (by norm_num) h4
        have hle : digitsVal ((pyStrip line).takeWhile Char.isDigit) ≤ 9999 := by omega
        constructor
        · rw [hy]
          exact Int.natCast_nonneg _
        · rw [hy]
          exact_mod_cast hle
    · rw [parseLine] at h
      rw [if_neg hnil, if_neg htab] at h
      cases hws : wsMatch? (pyStrip line) with
      | none => rw [hws] at h; simp at h
      | some p =>
        obtain ⟨y0, c0⟩ := p
        rw [hws] at h
        simp only [Option.some.injEq, Prod.mk.injEq] at h
        have hy : y = (y0 : Int) := h.1.symm
        have hle := wsMatch?_year_le hws
        constructor
        · rw [hy]
          exact Int.natCast_nonneg _
        · rw [hy]
          exact_mod_cast hle

/-- A line with five or more leading digits is rejected by both regexes. -/
theorem parseLine_long_digits {line : List Char}
    (h5 : 5 ≤ ((pyStrip line).takeWhile Char.isDigit).length) :
    parseLine line = none := by
  have hnil : pyStrip line ≠ [] := by
    intro hx
    rw [hx] at h5
    simp at h5
  have h4 : ¬((pyStrip line).takeWhile Char.isDigit).length ≤ 4 := by omega
  have htab : tabPat (pyStrip line) = false := by
    simp [tabPat, h4]
  have hws : wsMatch? (pyStrip line) = none := by
    rw [wsMatch?]
    simp [h4]
  rw [parseLine]
  rw [if_neg hnil, if_neg (by simp [htab]), hws]

/-- C10: every parsed year lies between 0 and 9999, and a line whose leading
digit run has five or more digits yields no pair at all. -/
theorem c10_year_range :
    (∀ lines y c, (y, c) ∈ parse_il_ts_file lines → 0 ≤ y ∧ y ≤ 9999) ∧
      ∀ line, 5 ≤ ((pyStrip line).takeWhile Char.isDigit).length →
        parseLine line = none := by
  constructor
  · intro lines
    induction lines with
    | nil =>
      intro y c h
      simp [parse_il_ts_file] at h
    | cons l rest ih =>
      intro y c h
      rw [parse_il_ts_file] at h
      cases hp : parseLine l with
      | none =>
        rw [hp] at h
        simp only [] at h
        exact ih y c h
      | some p =>
        rw [hp] at h
        simp only [] at h
        rcases List.mem_cons.mp h with h | h
        · subst h
          exact parseLine_bounds hp
        · exact ih y c h
  · intro line h5
    exact parseLine_long_digits h5

/-- Witness for C10 at the concrete file for topic 6. -/
theorem c10_witness :
    ((2020 : Int), (5 : Int)) ∈ parse_il_ts_file exFile6 ∧
      (0 ≤ (2020 : Int) ∧ (2020 : Int) ≤ 9999) :=
  ⟨by decide, c10_year_range.1 exFile6 2020 5 (by decide)⟩

/-- A group-by result has one output row per distinct key. -/
theorem groupBy_nodup {α β κ : Type} [DecidableEq κ] (key : α → κ) (mk : κ → β)
    (proj : β → κ) (hpm : ∀ k, proj (mk k) = k) (rows : List α) :
    (((rows.map key).dedup.map mk).map proj).Nodup := by
  rw [List.map_map]
  rw [show proj ∘ mk = id from funext hpm, List.map_id]
  exact List.nodup_dedup _

/-- A group-by result has an output row exactly for the keys present in the input. -/
theorem groupBy_mem {α β κ : Type} [DecidableEq κ] (key : α → κ) (mk : κ → β)
    (proj : β → κ) (hpm : ∀ k, proj (mk k) = k) (rows : List α) (k : κ) :
    k ∈ ((rows.map key).dedup.map mk).map proj ↔ ∃ r ∈ rows, key r = k := by
  rw [List.map_map]
  rw [show proj ∘ mk = id from funext hpm, List.map_id, List.mem_dedup, List.mem_map]

/-- C6: the rows `main` appends are exactly one row per parsed `(year, count)`
pair of a mapped topic whose count file exists, carrying that year and count, the
topic's id and mapped name, level `TS` and its fixed description. -/
theorem c6_appended_shape (files : Int → Option (List (List Char))) (r : Row) :
    r ∈ appendedRows files ↔
      ∃ tid name, (tid, name) ∈ TOPIC_MAP ∧ tid ∈ ([6, 7, 8, 9] : List Int) ∧
        ∃ content, files tid = some content ∧
          (r.Year, r.Record_Count) ∈ parse_il_ts_file content ∧
          r.Search_Topic_ID = tid ∧ r.Search_Topic = name ∧
          r.Search_Level = "TS" ∧
          r.Search_Level_Description = "Title + Abstract + Keywords" := by
  rw [appendedRows, List.mem_flatMap]
  constructor
  · rintro ⟨t, ht, hr⟩
    cases hf : files t.1 with
    | none =>
      rw [hf] at hr
      simp at hr
    | some content =>
      rw [hf] at hr
      simp only [List.mem_map] at hr
      obtain ⟨p, hp, hmk⟩ := hr
      subst hmk
      refine ⟨t.1, t.2, ht, ?_, content, hf, hp, rfl, rfl, rfl, rfl⟩
      have := List.mem_map_of_mem Prod.fst ht
      simpa [TOPIC_MAP] using this
  · rintro ⟨tid, name, htm, _, content, hf, hpair, hid, htp, hlv, hde⟩
    refine ⟨(tid, name), htm, ?_⟩
    show r ∈ match files tid with
      | none => ([] : List Row)
      | some content => (parse_il_ts_file content).map (mkTSRow tid name)
    rw [hf]
    simp only [List.mem_map]
    refine ⟨(r.Year, r.Record_Count), hpair, ?_⟩
    cases r
    simp only [mkTSRow] at hid htp hlv hde ⊢
    simp_all

/-- C7: the dashboard's filtered dataset holds exactly the rows passing all four
filter conditions, and the chart aggregation has one row per distinct
`(Year, Search_Topic_ID, Search_Topic, Search_Level)` group of the filtered
rows, valued by the group's summed `Record_Count`. -/
theorem c7_filter_agg (df : List Row) (topics : List Int) (levels : List String)
    (year_start year_end : Int) :
    (∀ r : Row, r ∈ filteredOf df topics levels year_start year_end ↔
        (r ∈ df ∧ r.Search_Topic_ID ∈ topics ∧ r.Search_Level ∈ levels ∧
          year_start ≤ r.Year ∧ r.Year ≤ year_end)) ∧
      ((aggOf (filteredOf df topics levels year_start year_end)).map
          (fun a => (a.Year, a.Search_Topic_ID, a.Search_Topic, a.Search_Level))).Nodup ∧
      (∀ k : Int × Int × String × String,
        k ∈ (aggOf (filteredOf df topics levels year_start year_end)).map
            (fun a => (a.Year, a.Search_Topic_ID, a.Search_Topic, a.Search_Level)) ↔
          ∃ r ∈ filteredOf df topics levels year_start year_end, aggKey r = k) ∧
      ∀ a ∈ aggOf (filteredOf df topics levels year_start year_end),
        a.Record_Count =
          rcSum ((filteredOf df topics levels year_start year_end).filter
            (fun r => decide
              (aggKey r = (a.Year, a.Search_Topic_ID, a.Search_Topic, a.Search_Level)))) := by
  refine ⟨?_, ?_, ?_, ?_⟩
  · intro r
    rw [filteredOf, List.mem_filter]
    simp only [Bool.and_eq_true, decide_eq_true_eq]
    tauto
  · rw [aggOf]
    exact groupBy_nodup aggKey _ _ (fun k => rfl) _
  · intro k
    rw [aggOf]
    exact groupBy_mem aggKey _ _ (fun k => rfl) _ k
  · intro a ha
    rw [aggOf, List.mem_map] at ha
    obtain ⟨k, hk, hmk⟩ := ha
    subst hmk
    rfl

/-- C3: the pivot view has one row per distinct `(Year, Search_Topic_ID,
Search_Topic)` group of the table, and its cells run over the scope columns
among `KW`, `TI`, `TS` that occur in the table, each cell holding the group's
summed `Record_Count` at that scope (so `0` when the group has no row there). -/
theorem c3_pivot_groups (rows : List Row) :
    ((pivotOf rows).map
        (fun p => (p.Year, p.Search_Topic_ID, p.Search_Topic))).Nodup ∧
      (∀ k : Int × Int × String,
        k ∈ (pivotOf rows).map (fun p => (p.Year, p.Search_Topic_ID, p.Search_Topic)) ↔
          ∃ r ∈ rows, tripleOf r = k) ∧
      ∀ p ∈ pivotOf rows, ∀ c v,
        (c, v) ∈ p.cells ↔
          (c ∈ (["KW", "TI", "TS"] : List String) ∧
            (∃ r ∈ rows, r.Search_Level = c) ∧
            v = rcSum (rows.filter (fun r =>
              decide (tripleOf r = (p.Year, p.Search_Topic_ID, p.Search_Topic)) &&
                decide (r.Search_Level = c)))) := by
  refine ⟨?_, ?_, ?_⟩
  · rw [pivotOf, pivotKeys]
    exact groupBy_nodup tripleOf _ _ (fun k => rfl) _
  · intro k
    rw [pivotOf, pivotKeys]
    exact groupBy_mem tripleOf _ _ (fun k => rfl) _ k
  · intro p hp c v
    rw [pivotOf, List.mem_map] at hp
    obtain ⟨k, hk, hmk⟩ := hp
    subst hmk
    simp only [List.mem_map, pivotLevels, List.mem_filter, List.any_eq_true,
      decide_eq_true_eq, Prod.mk.injEq]
    constructor
    · rintro ⟨c', ⟨hc1, r, hr, hlv⟩, rfl, rfl⟩
      exact ⟨hc1, ⟨r, hr, hlv⟩, rfl⟩
    · rintro ⟨hc1, ⟨r, hr, hlv⟩, rfl⟩
      exact ⟨c, ⟨hc1, r, hr, hlv⟩, rfl, rfl⟩

/-- C4: the summary view has one row per distinct `(Search_Topic_ID,
Search_Topic, Search_Level)` combination of the table, valued by the summed
`Record_Count` over all years of that combination. -/
theorem c4_summary_groups (rows : List Row) :
    ((summaryOf rows).map
        (fun s => (s.Search_Topic_ID, s.Search_Topic, s.Search_Level))).Nodup ∧
      (∀ k : Int × String × String,
        k ∈ (summaryOf rows).map
            (fun s => (s.Search_Topic_ID, s.Search_Topic, s.Search_Level)) ↔
          ∃ r ∈ rows, sKey r = k) ∧
      ∀ s ∈ summaryOf rows,
        s.Record_Count = rcSum (rows.filter (fun r =>
          decide (sKey r = (s.Search_Topic_ID, s.Search_Topic, s.Search_Level)))) := by
  refine ⟨?_, ?_, ?_⟩
  · rw [summaryOf]
    exact groupBy_nodup sKey _ _ (fun k => rfl) _
  · intro k
    rw [summaryOf]
    exact groupBy_mem sKey _ _ (fun k => rfl) _ k
  · intro s hs
    rw [summaryOf, List.mem_map] at hs
    obtain ⟨k, hk, hmk⟩ := hs
    subst hmk
    rfl

/-- Summed `Record_Count` of a cons. -/
theorem rcSum_cons (r : Row) (rows : List Row) :
    rcSum (r :: rows) = r.Record_Count + rcSum rows := by
  simp [rcSum]

/-- A filter along the disjunction of two pointwise-exclusive tests splits the
summed `Record_Count`. -/
theorem rcSum_filter_or (p q : Row → Bool) (rows : List Row)
    (h : ∀ r, ¬(p r = true ∧ q r = true)) :
    rcSum (rows.filter (fun r => p r || q r)) =
      rcSum (rows.filter p) + rcSum (rows.filter q) := by
  induction rows with
  | nil => simp [rcSum]
  | cons r rs ih =>
    by_cases hp : p r = true <;> by_cases hq : q r = true
    · exact absurd ⟨hp, hq⟩ (h r)
    · have hq' : q r = false := Bool.eq_false_iff.mpr hq
      simp [List.filter_cons, hp, hq', rcSum_cons]
      omega
    · have hp' : p r = false := Bool.eq_false_iff.mpr hp
      simp [List.filter_cons, hp', hq, rcSum_cons]
      omega
    · have hp' : p r = false := Bool.eq_false_iff.mpr hp
      have hq' : q r = false := Bool.eq_false_iff.mpr hq
      simp [List.filter_cons, hp', hq']
      exact ih

/-- Summing the per-fiber totals over a duplicate-free key list totals the rows
whose key lies in the list. -/
theorem rcSum_fibers {κ : Type} [DecidableEq κ] (f : Row → κ) (rows : List Row) :
    ∀ keys : List κ, keys.Nodup →
      ((keys.map (fun k => rcSum (rows.filter (fun r => decide (f r = k))))).sum =
        rcSum (rows.filter (fun r => decide (f r ∈ keys)))) := by
  intro keys
  induction keys with
  | nil =>
    intro _
    simp [rcSum]
  | cons k ks ih =>
    intro hnd
    rw [List.map_cons, List.sum_cons, ih (List.nodup_cons.mp hnd).2]
    have hdisj : ∀ r : Row,
        ¬(decide (f r = k) = true ∧ decide (f r ∈ ks) = true) := by
      rintro r ⟨h1, h2⟩
      rw [decide_eq_true_eq] at h1 h2
      rw [h1] at h2
      exact (List.nodup_cons.mp hnd).1 h2
    rw [← rcSum_filter_or _ _ rows hdisj]
    apply congrArg
    apply List.filter_congr
    intro r _
    simp [List.mem_cons]

/-- When the key list covers every row, the per-fiber totals sum to the full
total. -/
theorem rcSum_fibers_cover {κ : Type} [DecidableEq κ] (f : Row → κ)
    (rows : List Row) (keys : List κ) (hnd : keys.Nodup)
    (hcov : ∀ r ∈ rows, f r ∈ keys) :
    ((keys.map (fun k => rcSum (rows.filter (fun r => decide (f r = k))))).sum =
      rcSum rows) := by
  rw [rcSum_fibers f rows keys hnd,
    List.filter_eq_self.mpr (fun r hr => by
      rw [decide_eq_true_eq]
      exact hcov r hr)]

/-- The summary view's grand total is the detailed table's grand total. -/
theorem summary_total (rows : List Row) :
    ((summaryOf rows).map SummaryRow.Record_Count).sum = rcSum rows := by
  rw [summaryOf, List.map_map]
  exact rcSum_fibers_cover sKey rows ((rows.map sKey).dedup) (List.nodup_dedup _)
    (fun r hr => List.mem_dedup.mpr (List.mem_map_of_mem sKey hr))

/-- One pivot row's cells total the group's rows at scopes `KW`, `TI`, `TS`. -/
theorem pivot_row_total (rows : List Row) (k : Int × Int × String) :
    ((pivotLevels rows).map (fun c => pivotCell rows k c)).sum =
      rcSum ((rows.filter (fun r =>
          decide (r.Search_Level ∈ (["KW", "TI", "TS"] : List String)))).filter
        (fun r => decide (tripleOf r = k))) := by
  have hcell : ∀ c, pivotCell rows k c =
      rcSum ((rows.filter (fun r => decide (tripleOf r = k))).filter
        (fun r => decide (r.Search_Level = c))) := by
    intro c
    rw [pivotCell, List.filter_filter]
    exact congrArg rcSum (List.filter_congr (fun r _ => Bool.and_comm _ _)).symm
  have hnd : (pivotLevels rows).Nodup :=
    List.Nodup.filter _ (by decide)
  rw [List.map_congr_left (fun c _ => hcell c),
    rcSum_fibers Row.Search_Level
      (rows.filter (fun r => decide (tripleOf r = k))) (pivotLevels rows) hnd]
  have hiff : ∀ r ∈ rows.filter (fun r => decide (tripleOf r = k)),
      decide (r.Search_Level ∈ pivotLevels rows) =
        decide (r.Search_Level ∈ (["KW", "TI", "TS"] : List String)) := by
    intro r hr
    have hrr : r ∈ rows := (List.mem_filter.mp hr).1
    apply decide_eq_decide.mpr
    rw [pivotLevels, List.mem_filter]
    constructor
    · rintro ⟨h1, _⟩
      exact h1
    · intro h1
      refine ⟨h1, ?_⟩
      rw [List.any_eq_true]
      exact ⟨r, hrr, by simp⟩
  rw [List.filter_congr hiff, List.filter_filter, List.filter_filter]
  exact congrArg rcSum (List.filter_congr (fun r _ => Bool.and_comm _ _))

/-- The pivot view's grand total is the detailed total of the rows at scopes
`KW`, `TI`, `TS`. -/
theorem pivot_total (rows : List Row) :
    ((pivotOf rows).map (fun p => (p.cells.map Prod.snd).sum)).sum =
      rcSum (rows.filter (fun r =>
        decide (r.Search_Level ∈ (["KW", "TI", "TS"] : List String)))) := by
  rw [pivotOf, List.map_map]
  have hmap : ∀ k ∈ pivotKeys rows,
      ((fun p : PivotRow => (p.cells.map Prod.snd).sum) ∘
        (fun k : Int × Int × String =>
          ({ Year := k.1, Search_Topic_ID := k.2.1, Search_Topic := k.2.2,
             cells := (pivotLevels rows).map (fun c => (c, pivotCell rows k c)) } :
            PivotRow))) k =
        ((pivotLevels rows).map (fun c => pivotCell rows k c)).sum := by
    intro k _
    show (((pivotLevels rows).map (fun c => (c, pivotCell rows k c))).map Prod.snd).sum =
      ((pivotLevels rows).map (fun c => pivotCell rows k c)).sum
    rw [List.map_map]
    rfl
  rw [List.map_congr_left hmap,
    List.map_congr_left (fun k _ => pivot_row_total rows k)]
  exact rcSum_fibers_cover tripleOf
    (rows.filter (fun r =>
      decide (r.Search_Level ∈ (["KW", "TI", "TS"] : List String))))
    (pivotKeys rows) (List.nodup_dedup _)
    (fun r hr =>
      List.mem_dedup.mpr
        (List.mem_map_of_mem tripleOf (List.mem_filter.mp hr).1))

/-- C5 fails as stated: merging over a master that holds a row at scope `AB`
(not a pivot column) yields views whose grand totals disagree - the detailed and
summary totals count the `AB` row, the pivot total does not. -/
theorem c5_counterexample :
    rcSum (mainRun files0 st0).detailed = 17 ∧
      ((mainRun files0 st0).summary.map SummaryRow.Record_Count).sum = 17 ∧
      ((mainRun files0 st0).pivot.map (fun p => (p.cells.map Prod.snd).sum)).sum = 12 ∧
      (12 : Int) ≠ 17 := by decide

/-- C5 (amended): the summary view's grand total always equals the merged
table's grand total; the pivot view's grand total equals the merged table's
total over the rows whose scope is `KW`, `TI` or `TS`; consequently all three
grand totals agree whenever every row of the merged table is at one of those
three scopes. -/
theorem c5_totals (rows : List Row) :
    ((summaryOf rows).map SummaryRow.Record_Count).sum = rcSum rows ∧
      ((pivotOf rows).map (fun p => (p.cells.map Prod.snd).sum)).sum =
        rcSum (rows.filter (fun r =>
          decide (r.Search_Level ∈ (["KW", "TI", "TS"] : List String)))) ∧
      ((∀ r ∈ rows, r.Search_Level ∈ (["KW", "TI", "TS"] : List String)) →
        ((pivotOf rows).map (fun p => (p.cells.map Prod.snd).sum)).sum = rcSum rows) := by
  refine ⟨summary_total rows, pivot_total rows, fun hall => ?_⟩
  rw [pivot_total rows,
    List.filter_eq_self.mpr (fun r hr => by
      rw [decide_eq_true_eq]
      exact hall r hr)]

/-- All-`TS` table used as the concrete input of C5's witness. -/
def rowsTS : List Row := [row7TS]

/-- Witness for C5's amended theorem at a table whose scopes are all among
`KW`, `TI`, `TS`. -/
theorem c5_witness :
    (∀ r ∈ rowsTS, r.Search_Level ∈ (["KW", "TI", "TS"] : List String)) ∧
      ((pivotOf rowsTS).map (fun p => (p.cells.map Prod.snd).sum)).sum = rcSum rowsTS :=
  ⟨by decide, (c5_totals rowsTS).2.2 (by decide)⟩

/-- The appended row of topic 6 used as the concrete input of C6's witness. -/
def row6TS2020 : Row := mkTSRow 6 "Ionic Liquids (All)" (2020, 5)

/-- Witness for C6 at the concrete directory `files0` and the first appended
row. -/
theorem c6_witness :
    row6TS2020 ∈ appendedRows files0 ↔
      ∃ tid name, (tid, name) ∈ TOPIC_MAP ∧ tid ∈ ([6, 7, 8, 9] : List Int) ∧
        ∃ content, files0 tid = some content ∧
          (row6TS2020.Year, row6TS2020.Record_Count) ∈ parse_il_ts_file content ∧
          row6TS2020.Search_Topic_ID = tid ∧ row6TS2020.Search_Topic = name ∧
          row6TS2020.Search_Level = "TS" ∧
          row6TS2020.Search_Level_Description = "Title + Abstract + Keywords" :=
  c6_appended_shape files0 row6TS2020

/-- Witness for C7's filter characterization at a concrete dataset and
selection. -/
theorem c7_witness :
    row7TS ∈ filteredOf st0.detailed [7] ["TS"] 1975 2024 ↔
      (row7TS ∈ st0.detailed ∧ row7TS.Search_Topic_ID ∈ ([7] : List Int) ∧
        row7TS.Search_Level ∈ (["TS"] : List String) ∧
        (1975 : Int) ≤ row7TS.Year ∧ row7TS.Year ≤ (2024 : Int)) :=
  (c7_filter_agg st0.detailed [7] ["TS"] 1975 2024).1 row7TS

/-- Witness for C3's group membership at the concrete prior table of `st0`. -/
theorem c3_witness :
    ((2000 : Int), (7 : Int), "ILs in Electrochemistry") ∈
        (pivotOf st0.detailed).map
          (fun p => (p.Year, p.Search_Topic_ID, p.Search_Topic)) ↔
      ∃ r ∈ st0.detailed,
        tripleOf r = ((2000 : Int), (7 : Int), "ILs in Electrochemistry") :=
  (c3_pivot_groups st0.detailed).2.1 ((2000 : Int), (7 : Int), "ILs in Electrochemistry")

/-- Witness for C4's group membership at the concrete prior table of `st0`. -/
theorem c4_witness :
    ((7 : Int), "ILs in Electrochemistry", "TS") ∈
        (summaryOf st0.detailed).map
          (fun s => (s.Search_Topic_ID, s.Search_Topic, s.Search_Level)) ↔
      ∃ r ∈ st0.detailed, sKey r = ((7 : Int), "ILs in Electrochemistry", "TS") :=
  (c4_summary_groups st0.detailed).2.1 ((7 : Int), "ILs in Electrochemistry", "TS")

end ILTrends
